import Mathlib

/-!
Verification of the astria-indexer storage transaction layer against its
specification.  The pure data model below embeds the entity rows of spec §3 and
the operations of spec §4 (Identity Resolver, Aggregate Updater, Rollback
Engine, Retention Manager, Unit-of-Work) together with the statistics read
path of `internal/storage/postgres/stats.go`.  The storage transaction
implementation itself (`internal/storage/postgres/transaction.go`) is not
among the available sources — only its test suite is — so those operations are
modelled from the specification text, as noted on each definition.
-/

namespace Astria

/-- Address row of the data model (spec §3): surrogate id, the 20-byte hash
modelled as a string, creation height, nonce and the two cumulative counters.
Counters are integers so that delta updates and their inverses are closed. -/
structure Address where
  id : Nat
  hash : String
  height : Nat
  nonce : Nat
  actionsCount : Int
  signedTxCount : Int
deriving DecidableEq

/-- Store of address rows together with the next surrogate identifier that a
genuinely new insert would receive. -/
structure AddressStore where
  rows : List Address
  nextId : Nat
deriving DecidableEq

/-- Hashes of a list of address rows, in storage order. -/
def rowHashes (rs : List Address) : List String := rs.map Address.hash

/-- Natural-identity uniqueness invariant of the address table (spec §3:
"hash is globally unique"): no two stored rows share a hash. -/
abbrev UniqueHashes (st : AddressStore) : Prop := (rowHashes st.rows).Nodup

/-- Number of stored rows carrying hash `H`. -/
def countHash (rs : List Address) (H : String) : Nat :=
  (rs.filter (fun r => r.hash == H)).length

/-- Modelled from the spec: `SaveAddresses` of the storage transaction
implementation (`internal/storage/postgres/transaction.go`, absent from the
available sources; spec §4.2 Identity Resolver).  Candidates are processed in
order: a candidate whose hash already has a stored row is back-filled with that
row's id and nothing is written — the first-seen row is authoritative and is
never overwritten; otherwise a fresh surrogate id is assigned, exactly one row
is inserted, and later candidates sharing the hash resolve to it.  Returns the
final store, the back-filled batch and the count of genuinely new rows. -/
def saveAddresses : AddressStore → List Address → AddressStore × List Address × Nat
  | st, [] => (st, [], 0)
  | st, a :: rest =>
    match st.rows.find? (fun r => r.hash == a.hash) with
    | some r =>
      let p := saveAddresses st rest
      (p.1, { a with id := r.id } :: p.2.1, p.2.2)
    | none =>
      let row := { a with id := st.nextId }
      let p := saveAddresses ⟨st.rows ++ [row], st.nextId + 1⟩ rest
      (p.1, row :: p.2.1, p.2.2 + 1)

/-- Count of genuinely new identities in a list of candidate hashes, given the
already-known hashes: duplicates within the batch count once and known hashes
count zero.  This renders the spec wording "count of genuinely new rows
inserted (not the input batch length)" independently of the store mechanics. -/
def countNewHashes (known : List String) : List String → Nat
  | [] => 0
  | h :: rest =>
    if h ∈ known then countNewHashes known rest
    else countNewHashes (h :: known) rest + 1

theorem find?_hash_eq_none {rs : List Address} {H : String} :
    rs.find? (fun r => r.hash == H) = none ↔ H ∉ rowHashes rs := by
  rw [List.find?_eq_none]
  constructor
  · intro h hmem
    rcases List.mem_map.mp hmem with ⟨r, hr, hh⟩
    exact h r hr (by simp [hh])
  · intro h r hr hpr
    exact h (List.mem_map.mpr ⟨r, hr, by simpa using hpr⟩)

theorem saveAddresses_rows_extend (st : AddressStore) (batch : List Address) :
    ∃ ext, (saveAddresses st batch).1.rows = st.rows ++ ext := by
  induction batch generalizing st with
  | nil => exact ⟨[], by simp [saveAddresses]⟩
  | cons a rest ih =>
    rw [saveAddresses]
    cases hf : st.rows.find? (fun r => r.hash == a.hash) with
    | some r => simpa using ih st
    | none =>
      rcases ih ⟨st.rows ++ [{ a with id := st.nextId }], st.nextId + 1⟩ with ⟨ext, hext⟩
      exact ⟨{ a with id := st.nextId } :: ext, by simpa using hext⟩

theorem saveAddresses_preserves_unique (st : AddressStore) (batch : List Address)
    (h : UniqueHashes st) : UniqueHashes (saveAddresses st batch).1 := by
  induction batch generalizing st with
  | nil => simpa [saveAddresses] using h
  | cons a rest ih =>
    rw [saveAddresses]
    cases hf : st.rows.find? (fun r => r.hash == a.hash) with
    | some r => simpa using ih st h
    | none =>
      apply ih
      have hnot : a.hash ∉ rowHashes st.rows := find?_hash_eq_none.mp hf
      have hall : ∀ x ∈ st.rows, ¬x.hash = a.hash := by
        intro x hx hcontra
        exact hnot (List.mem_map.mpr ⟨x, hx, hcontra⟩)
      simpa [UniqueHashes, rowHashes, List.nodup_append] using ⟨h, hall⟩

theorem saveAddresses_batch_hash_mem (st : AddressStore) (batch : List Address)
    (a : Address) (ha : a ∈ batch) :
    a.hash ∈ rowHashes (saveAddresses st batch).1.rows := by
  induction batch generalizing st with
  | nil => cases ha
  | cons b rest ih =>
    rw [saveAddresses]
    cases hf : st.rows.find? (fun r => r.hash == b.hash) with
    | some r =>
      rcases List.mem_cons.mp ha with hab | harest
      · have hr : r ∈ st.rows := List.mem_of_find?_eq_some hf
        have hrh : r.hash = b.hash := by simpa using List.find?_some hf
        rcases saveAddresses_rows_extend st rest with ⟨ext, hext⟩
        have : r ∈ (saveAddresses st rest).1.rows := by
          rw [hext]; exact List.mem_append_left _ hr
        subst hab
        simpa [rowHashes, hrh] using List.mem_map.mpr ⟨r, this, hrh⟩
      · simpa using ih st harest
    | none =>
      rcases List.mem_cons.mp ha with hab | harest
      · rcases saveAddresses_rows_extend
          ⟨st.rows ++ [{ b with id := st.nextId }], st.nextId + 1⟩ rest with ⟨ext, hext⟩
        have hmem : ({ b with id := st.nextId } : Address) ∈
            (saveAddresses ⟨st.rows ++ [{ b with id := st.nextId }], st.nextId + 1⟩ rest).1.rows := by
          rw [hext]
          exact List.mem_append_left _ (by simp)
        subst hab
        simpa [rowHashes] using List.mem_map.mpr ⟨{ a with id := st.nextId }, hmem, rfl⟩
      · simpa using ih ⟨st.rows ++ [{ b with id := st.nextId }], st.nextId + 1⟩ harest

theorem store_hash_mem_saveAddresses (st : AddressStore) (batch : List Address)
    (H : String) (h : H ∈ rowHashes st.rows) :
    H ∈ rowHashes (saveAddresses st batch).1.rows := by
  rcases saveAddresses_rows_extend st batch with ⟨ext, hext⟩
  rw [hext]
  simpa [rowHashes] using Or.inl (by simpa [rowHashes] using h)

theorem uniqueHashes_snoc {rs : List Address} {x : Address}
    (h : (rowHashes rs).Nodup) (hx : x.hash ∉ rowHashes rs) :
    (rowHashes (rs ++ [x])).Nodup := by
  have hall : ∀ y ∈ rs, ¬y.hash = x.hash := fun y hy hc => hx (List.mem_map.mpr ⟨y, hy, hc⟩)
  simpa [rowHashes, List.nodup_append] using ⟨h, hall⟩

theorem saveAddresses_backfill (st : AddressStore) (batch : List Address)
    (hinv : UniqueHashes st) :
    ∀ a ∈ (saveAddresses st batch).2.1, ∃ row, row ∈ (saveAddresses st batch).1.rows ∧
      row.hash = a.hash ∧ a.id = row.id := by
  induction batch generalizing st with
  | nil => intro a ha; simp [saveAddresses] at ha
  | cons b rest ih =>
    rw [saveAddresses]
    cases hf : st.rows.find? (fun r => r.hash == b.hash) with
    | some r =>
      intro a ha
      rcases List.mem_cons.mp ha with rfl | hrest
      · have hr : r ∈ st.rows := List.mem_of_find?_eq_some hf
        have hrh : r.hash = b.hash := by simpa using List.find?_some hf
        rcases saveAddresses_rows_extend st rest with ⟨ext, hext⟩
        refine ⟨r, ?_, ?_, rfl⟩
        · rw [hext]; exact List.mem_append_left _ hr
        · simpa using hrh
      · exact ih st hinv a hrest
    | none =>
      intro a ha
      rcases List.mem_cons.mp ha with rfl | hrest
      · rcases saveAddresses_rows_extend
          ⟨st.rows ++ [{ b with id := st.nextId }], st.nextId + 1⟩ rest with ⟨ext, hext⟩
        refine ⟨{ b with id := st.nextId }, ?_, rfl, rfl⟩
        rw [hext]
        exact List.mem_append_left _ (by simp)
      · have hnot : b.hash ∉ rowHashes st.rows := find?_hash_eq_none.mp hf
        exact ih ⟨st.rows ++ [{ b with id := st.nextId }], st.nextId + 1⟩
          (uniqueHashes_snoc hinv hnot) a hrest

theorem countNewHashes_congr (k₁ k₂ : List String) (l : List String)
    (h : ∀ x, x ∈ k₁ ↔ x ∈ k₂) : countNewHashes k₁ l = countNewHashes k₂ l := by
  induction l generalizing k₁ k₂ with
  | nil => rfl
  | cons hd tl ih =>
    simp only [countNewHashes]
    by_cases hmem : hd ∈ k₁
    · rw [if_pos hmem, if_pos ((h hd).mp hmem)]
      exact ih _ _ h
    · rw [if_neg hmem, if_neg (fun c => hmem ((h hd).mpr c))]
      have hc : ∀ x, x ∈ hd :: k₁ ↔ x ∈ hd :: k₂ := by
        intro x
        simp [h x]
      rw [ih _ _ hc]

theorem saveAddresses_count (st : AddressStore) (batch : List Address) :
    (saveAddresses st batch).2.2 =
      countNewHashes (rowHashes st.rows) (batch.map Address.hash) := by
  induction batch generalizing st with
  | nil => simp [saveAddresses, countNewHashes]
  | cons b rest ih =>
    rw [saveAddresses]
    cases hf : st.rows.find? (fun r => r.hash == b.hash) with
    | some r =>
      have hmem : b.hash ∈ rowHashes st.rows := by
        have hr := List.mem_of_find?_eq_some hf
        have hrh : r.hash = b.hash := by simpa using List.find?_some hf
        exact List.mem_map.mpr ⟨r, hr, hrh⟩
      simp only [List.map_cons, countNewHashes, if_pos hmem]
      simpa using ih st
    | none =>
      have hnot : b.hash ∉ rowHashes st.rows := find?_hash_eq_none.mp hf
      simp only [List.map_cons, countNewHashes, if_neg hnot]
      have hrec := ih ⟨st.rows ++ [{ b with id := st.nextId }], st.nextId + 1⟩
      have hcongr := countNewHashes_congr
        (rowHashes (st.rows ++ [{ b with id := st.nextId }]))
        (b.hash :: rowHashes st.rows) (rest.map Address.hash)
        (by intro x; simp [rowHashes, or_comm])
      simp only [hrec, hcongr]

theorem countHash_eq_one {rs : List Address} {H : String}
    (d : (rowHashes rs).Nodup) (h : H ∈ rowHashes rs) : countHash rs H = 1 := by
  induction rs with
  | nil => simp [rowHashes] at h
  | cons r tl ih =>
    have hd : r.hash ∉ rowHashes tl ∧ (rowHashes tl).Nodup := List.nodup_cons.mp d
    have hsplit : H = r.hash ∨ H ∈ rowHashes tl := List.mem_cons.mp h
    by_cases hr : r.hash = H
    · have hnot : H ∉ rowHashes tl := hr ▸ hd.1
      have htl : tl.filter (fun x => x.hash == H) = [] := by
        rw [List.filter_eq_nil_iff]
        intro x hx
        simp only [beq_iff_eq]
        intro hc
        exact hnot (List.mem_map.mpr ⟨x, hx, hc⟩)
      simp [countHash, List.filter_cons, hr, htl]
    · have hmem : H ∈ rowHashes tl := by
        rcases hsplit with h1 | h2
        · exact absurd h1.symm hr
        · exact h2
      have := ih hd.2 hmem
      simpa [countHash, List.filter_cons, hr] using this

/-- Claim C1: for every address hash H, calling SaveAddresses with any number of
candidates sharing H, across any number of separate calls (any store satisfying
the uniqueness invariant, which is preserved), results in exactly one stored row
with hash H; every candidate's id is back-filled to that row's id; and the
returned count is the number of genuinely new identities, not the batch
length — so only the first call that introduces H reports an insertion. -/
theorem saveAddresses_dedup_idempotent (st : AddressStore) (batch : List Address)
    (hinv : UniqueHashes st) :
    UniqueHashes (saveAddresses st batch).1 ∧
    (∀ H : String, (H ∈ batch.map Address.hash ∨ H ∈ rowHashes st.rows) →
      countHash (saveAddresses st batch).1.rows H = 1) ∧
    (∀ a ∈ (saveAddresses st batch).2.1, ∃ row, row ∈ (saveAddresses st batch).1.rows ∧
      row.hash = a.hash ∧ a.id = row.id) ∧
    (saveAddresses st batch).2.2 =
      countNewHashes (rowHashes st.rows) (batch.map Address.hash) := by
  refine ⟨saveAddresses_preserves_unique st batch hinv, ?_,
    saveAddresses_backfill st batch hinv, saveAddresses_count st batch⟩
  intro H hH
  have hU := saveAddresses_preserves_unique st batch hinv
  have hmem : H ∈ rowHashes (saveAddresses st batch).1.rows := by
    rcases hH with h | h
    · rcases List.mem_map.mp h with ⟨a, ha, rfl⟩
      exact saveAddresses_batch_hash_mem st batch a ha
    · exact store_hash_mem_saveAddresses st batch H h
  exact countHash_eq_one hU hmem

/-- Empty address store used to exercise the dedup theorem. -/
def c1Store : AddressStore := ⟨[], 1⟩

/-- Batch with two candidates sharing hash "aa" and one with hash "bb". -/
def c1Batch : List Address :=
  [⟨0, "aa", 10, 0, 0, 0⟩, ⟨0, "aa", 11, 0, 0, 0⟩, ⟨0, "bb", 10, 0, 0, 0⟩]

theorem saveAddresses_dedup_idempotent_witness :
    UniqueHashes c1Store ∧
    countHash (saveAddresses c1Store c1Batch).1.rows "aa" = 1 ∧
    (saveAddresses c1Store c1Batch).2.2 = 2 :=
  ⟨by decide,
   (saveAddresses_dedup_idempotent c1Store c1Batch (by decide)).2.1 "aa" (by decide),
   by decide⟩

/-- Claim C4: first-seen wins.  If a row with hash H is already stored and a
candidate with the same hash and a later height is submitted, the store is left
unchanged (no new row, the first-seen row keeps every field including its
height), the candidate resolves to the existing row's id, and the call reports
zero insertions. -/
theorem saveAddresses_first_seen_wins (st : AddressStore) (r a : Address)
    (hinv : UniqueHashes st) (hmem : r ∈ st.rows) (hhash : r.hash = a.hash)
    (hheight : r.height < a.height) :
    saveAddresses st [a] = (st, [{ a with id := r.id }], 0) := by
  cases hf : st.rows.find? (fun x => x.hash == a.hash) with
  | none =>
    exact absurd (List.mem_map.mpr ⟨r, hmem, hhash⟩) (find?_hash_eq_none.mp hf)
  | some r' =>
    have hr' : r' ∈ st.rows := List.mem_of_find?_eq_some hf
    have hr'h : r'.hash = a.hash := by simpa using List.find?_some hf
    have heq : r' = r :=
      List.inj_on_of_nodup_map (by simpa [rowHashes] using hinv) hr' hmem
        (hr'h.trans hhash.symm)
    subst heq
    rw [saveAddresses, hf]
    simp [saveAddresses]

/-- Store holding one row with hash "cc" created at height 7. -/
def c4Store : AddressStore := ⟨[⟨3, "cc", 7, 4, 2, 1⟩], 5⟩

/-- Candidate with the stored hash "cc" but a later height 9. -/
def c4Cand : Address := ⟨0, "cc", 9, 0, 0, 0⟩

theorem saveAddresses_first_seen_wins_witness :
    UniqueHashes c4Store ∧ (⟨3, "cc", 7, 4, 2, 1⟩ : Address) ∈ c4Store.rows ∧
    (7 : Nat) < 9 ∧
    saveAddresses c4Store [c4Cand] = (c4Store, [⟨3, "cc", 9, 0, 0, 0⟩], 0) :=
  ⟨by decide, by decide, by decide,
   saveAddresses_first_seen_wins c4Store ⟨3, "cc", 7, 4, 2, 1⟩ c4Cand
     (by decide) (by decide) rfl (by decide)⟩

/-- Rollup row of the data model (spec §3): surrogate id, chain identifier,
first-seen height, the two running totals and the optional bridge address id. -/
structure Rollup where
  id : Nat
  astriaId : String
  firstHeight : Nat
  actionsCount : Int
  size : Int
  bridgeAddressId : Nat
deriving DecidableEq

/-- Modelled from the spec: the per-row effect of `UpdateAddresses`
(`internal/storage/postgres/transaction.go`, absent from the available sources;
spec §4.3 Aggregate Updater): the counters receive the delta, the nonce is an
absolute overwrite. -/
def applyAddressUpdate (r upd : Address) : Address :=
  { r with
    actionsCount := r.actionsCount + upd.actionsCount
    signedTxCount := r.signedTxCount + upd.signedTxCount
    nonce := upd.nonce }

/-- Modelled from the spec: the per-row effect of `UpdateRollups` (spec §4.3):
actionsCount and size receive the delta. -/
def applyRollupUpdate (r upd : Rollup) : Rollup :=
  { r with
    actionsCount := r.actionsCount + upd.actionsCount
    size := r.size + upd.size }

/-- Modelled from the spec: `UpdateAddresses` applies a delta update to the
stored row with the update's surrogate id; an update targeting an id with no
stored row surfaces a not-found error (spec §7). -/
def updateAddresses (store : List Address) (upd : Address) :
    Except String (List Address) :=
  if store.any (fun r => r.id == upd.id) then
    Except.ok (store.map (fun r => if r.id == upd.id then applyAddressUpdate r upd else r))
  else Except.error "address not found"

/-- Modelled from the spec: `UpdateRollups`, the rollup analogue of
`updateAddresses`. -/
def updateRollups (store : List Rollup) (upd : Rollup) :
    Except String (List Rollup) :=
  if store.any (fun r => r.id == upd.id) then
    Except.ok (store.map (fun r => if r.id == upd.id then applyRollupUpdate r upd else r))
  else Except.error "rollup not found"

/-- Surrogate-id uniqueness of a stored address table. -/
abbrev UniqueAddressIds (store : List Address) : Prop := (store.map Address.id).Nodup

theorem map_id_of_mem {α : Type} (f : α → α) (l : List α) (h : ∀ x ∈ l, f x = x) :
    l.map f = l := by
  induction l with
  | nil => rfl
  | cons a tl ih =>
    simp only [List.map_cons, h a (by simp)]
    rw [ih (fun x hx => h x (by simp [hx]))]

/-- Claim C3: delta reversibility.  Applying an update and then its arithmetic
inverse (count/size deltas negated, nonce set back to its prior value) restores
the row exactly, both per row and through `updateAddresses` on a store with
unique surrogate ids. -/
theorem update_delta_reversible :
    (∀ r u : Address,
      applyAddressUpdate (applyAddressUpdate r u)
        { u with actionsCount := -u.actionsCount, signedTxCount := -u.signedTxCount,
                 nonce := r.nonce } = r) ∧
    (∀ r u : Rollup,
      applyRollupUpdate (applyRollupUpdate r u)
        { u with actionsCount := -u.actionsCount, size := -u.size } = r) ∧
    (∀ (store : List Address) (u r : Address), UniqueAddressIds store → r ∈ store →
      r.id = u.id →
      ∃ s, updateAddresses store u = Except.ok s ∧
        updateAddresses s
          { u with actionsCount := -u.actionsCount, signedTxCount := -u.signedTxCount,
                   nonce := r.nonce } = Except.ok store) := by
  refine ⟨?_, ?_, ?_⟩
  · intro r u
    cases r
    simp [applyAddressUpdate]
  · intro r u
    cases r
    simp [applyRollupUpdate]
  · intro store u r huniq hmem hid
    have hany : store.any (fun x => x.id == u.id) = true :=
      List.any_eq_true.mpr ⟨r, hmem, by simp [hid]⟩
    refine ⟨store.map (fun x => if x.id == u.id then applyAddressUpdate x u else x),
      by simp [updateAddresses, hany], ?_⟩
    have hidmap : ∀ x : Address,
        (if x.id == u.id then applyAddressUpdate x u else x).id = x.id := by
      intro x
      by_cases hx : x.id = u.id <;> simp [hx, applyAddressUpdate]
    have hany2 : (store.map (fun x => if x.id == u.id then applyAddressUpdate x u else x)).any
        (fun x => x.id == u.id) = true := by
      refine List.any_eq_true.mpr ⟨_, List.mem_map.mpr ⟨r, hmem, rfl⟩, ?_⟩
      simp [hid, applyAddressUpdate]
    rw [updateAddresses, if_pos hany2, List.map_map]
    have hptw : ∀ x ∈ store,
        ((fun y => if y.id == u.id
            then applyAddressUpdate y
              { u with actionsCount := -u.actionsCount, signedTxCount := -u.signedTxCount,
                       nonce := r.nonce }
            else y) ∘ (fun y => if y.id == u.id then applyAddressUpdate y u else y)) x = x := by
      intro x hx
      by_cases hxid : x.id = u.id
      · have hxr : x = r := by
          have := List.inj_on_of_nodup_map huniq hx hmem (by rw [hxid, hid])
          exact this
        subst hxr
        simp only [Function.comp_apply]
        have hidr : (applyAddressUpdate x u).id = x.id := rfl
        rw [if_pos (by simp [hxid, hidr]), if_pos (by simp [hxid])]
        cases x
        simp [applyAddressUpdate]
      · simp [Function.comp_apply, hxid]
    rw [map_id_of_mem _ store hptw]

/-- Store with one address row (id 1) for the reversibility witness. -/
def c3Store : List Address := [⟨1, "dd", 3, 5, 4, 6⟩]

/-- Delta update targeting id 1: +2 actions, +3 signed txs, nonce set to 9. -/
def c3Upd : Address := ⟨1, "", 0, 9, 2, 3⟩

theorem update_delta_reversible_witness :
    UniqueAddressIds c3Store ∧
    ∃ s, updateAddresses c3Store c3Upd = Except.ok s ∧
      updateAddresses s
        { c3Upd with actionsCount := -c3Upd.actionsCount,
                     signedTxCount := -c3Upd.signedTxCount,
                     nonce := (⟨1, "dd", 3, 5, 4, 6⟩ : Address).nonce } = Except.ok c3Store :=
  ⟨by decide,
   update_delta_reversible.2.2 c3Store c3Upd ⟨1, "dd", 3, 5, 4, 6⟩
     (by decide) (by decide) rfl⟩

/-- Claim C5: update semantics.  On an existing row identified by surrogate id,
`updateAddresses` adds the count deltas and overwrites the nonce absolutely;
`updateRollups` adds the actionsCount and size deltas. -/
theorem update_semantics :
    (∀ (store : List Address) (u r : Address), r ∈ store → r.id = u.id →
      ∃ s, updateAddresses store u = Except.ok s ∧
        { r with actionsCount := r.actionsCount + u.actionsCount,
                 signedTxCount := r.signedTxCount + u.signedTxCount,
                 nonce := u.nonce } ∈ s) ∧
    (∀ (store : List Rollup) (u r : Rollup), r ∈ store → r.id = u.id →
      ∃ s, updateRollups store u = Except.ok s ∧
        { r with actionsCount := r.actionsCount + u.actionsCount,
                 size := r.size + u.size } ∈ s) := by
  constructor
  · intro store u r hmem hid
    have hany : store.any (fun x => x.id == u.id) = true :=
      List.any_eq_true.mpr ⟨r, hmem, by simp [hid]⟩
    refine ⟨store.map (fun x => if x.id == u.id then applyAddressUpdate x u else x),
      by simp [updateAddresses, hany], ?_⟩
    refine List.mem_map.mpr ⟨r, hmem, ?_⟩
    rw [if_pos (by simp [hid])]
    rfl
  · intro store u r hmem hid
    have hany : store.any (fun x => x.id == u.id) = true :=
      List.any_eq_true.mpr ⟨r, hmem, by simp [hid]⟩
    refine ⟨store.map (fun x => if x.id == u.id then applyRollupUpdate x u else x),
      by simp [updateRollups, hany], ?_⟩
    refine List.mem_map.mpr ⟨r, hmem, ?_⟩
    rw [if_pos (by simp [hid])]
    rfl

/-- Store with one address row having actionsCount 1, signedTxCount 2. -/
def c5Store : List Address := [⟨1, "ee", 2, 0, 1, 2⟩]

/-- The update of the reference scenario: actionsCount +1, signedTxCount +1,
nonce set to 10. -/
def c5Upd : Address := ⟨1, "", 0, 10, 1, 1⟩

theorem update_semantics_witness :
    (⟨1, "ee", 2, 0, 1, 2⟩ : Address) ∈ c5Store ∧
    ∃ s, updateAddresses c5Store c5Upd = Except.ok s ∧
      (⟨1, "ee", 2, 10, 2, 3⟩ : Address) ∈ s :=
  ⟨by decide, update_semantics.1 c5Store c5Upd ⟨1, "ee", 2, 0, 1, 2⟩ (by decide) rfl⟩

/-- BalanceUpdate row (spec §3): append-only ledger entry with height, address
id, currency and a signed delta. -/
structure BalanceUpdate where
  height : Nat
  addressId : Nat
  currency : String
  update : Int
deriving DecidableEq

/-- AddressAction link row (spec §3): one row per (address, action)
participation, stamped with the action's height. -/
structure AddressAction where
  addressId : Nat
  actionId : Nat
  actionType : String
  height : Nat
deriving DecidableEq

/-- Modelled from the spec: the plain-append `Save` operations of the Entity
Store (`internal/storage/postgres/transaction.go`, absent from the available
sources; spec §4.1) persist a batch by appending it to storage. -/
def saveRows {α : Type} (store batch : List α) : List α := store ++ batch

/-- Modelled from the spec: the Rollback Engine's per-kind deletion (spec §4.4),
keyed on the height stamped on the row itself: removes every row at the given
height and returns the removed rows alongside the remaining store. -/
def rollbackHeight {α : Type} (ht : α → Nat) (h : Nat) (store : List α) :
    List α × List α :=
  (store.filter (fun r => !(ht r == h)), store.filter (fun r => ht r == h))

/-- Modelled from the spec: `RollbackBalanceUpdates` (spec §4.4 table). -/
def rollbackBalanceUpdates (h : Nat) (store : List BalanceUpdate) :
    List BalanceUpdate × List BalanceUpdate :=
  rollbackHeight BalanceUpdate.height h store

/-- Modelled from the spec: `RollbackAddressActions` (spec §4.4 table). -/
def rollbackAddressActions (h : Nat) (store : List AddressAction) :
    List AddressAction × List AddressAction :=
  rollbackHeight AddressAction.height h store

theorem rollbackHeight_spec {α : Type} (ht : α → Nat) (h : Nat) (store : List α)
    (k : Nat) (hk : (store.filter (fun r => ht r == h)).length = k) :
    (rollbackHeight ht h store).2.length = k ∧
    (∀ r ∈ (rollbackHeight ht h store).2, ht r = h ∧ r ∈ store) ∧
    (∀ r ∈ (rollbackHeight ht h store).1, ht r ≠ h) ∧
    List.Perm (saveRows (rollbackHeight ht h store).1 (rollbackHeight ht h store).2)
      store := by
  refine ⟨hk, ?_, ?_, ?_⟩
  · intro r hr
    have hm := List.mem_filter.mp hr
    exact ⟨by simpa using hm.2, hm.1⟩
  · intro r hr
    have hm := List.mem_filter.mp hr
    simpa using hm.2
  · exact (List.perm_append_comm).trans
      (List.filter_append_perm (fun r => ht r == h) store)

/-- Claim C2: rollback symmetry for height-stamped link kinds.  If exactly k
rows carry height h, the rollback removes exactly those k rows, returns exactly
those rows with unchanged field values, the remaining store carries no row at
height h, and re-running the save with the removed rows reproduces the original
storage state (as a multiset of rows — relational state has no row order). -/
theorem rollback_save_symmetry :
    (∀ (store : List BalanceUpdate) (h k : Nat),
      (store.filter (fun r => r.height == h)).length = k →
      (rollbackBalanceUpdates h store).2.length = k ∧
      (∀ r ∈ (rollbackBalanceUpdates h store).2, r.height = h ∧ r ∈ store) ∧
      (∀ r ∈ (rollbackBalanceUpdates h store).1, r.height ≠ h) ∧
      List.Perm
        (saveRows (rollbackBalanceUpdates h store).1 (rollbackBalanceUpdates h store).2)
        store) ∧
    (∀ (store : List AddressAction) (h k : Nat),
      (store.filter (fun r => r.height == h)).length = k →
      (rollbackAddressActions h store).2.length = k ∧
      (∀ r ∈ (rollbackAddressActions h store).2, r.height = h ∧ r ∈ store) ∧
      (∀ r ∈ (rollbackAddressActions h store).1, r.height ≠ h) ∧
      List.Perm
        (saveRows (rollbackAddressActions h store).1 (rollbackAddressActions h store).2)
        store) :=
  ⟨fun store h k hk => rollbackHeight_spec BalanceUpdate.height h store k hk,
   fun store h k hk => rollbackHeight_spec AddressAction.height h store k hk⟩

/-- Balance-update fixture with two rows at height 7965 and one at 7000. -/
def c2Store : List BalanceUpdate :=
  [⟨7965, 1, "nria", 10⟩, ⟨7000, 2, "nria", 5⟩, ⟨7965, 3, "nria", -4⟩]

theorem rollback_save_symmetry_witness :
    (c2Store.filter (fun r => r.height == 7965)).length = 2 ∧
    (rollbackBalanceUpdates 7965 c2Store).2.length = 2 ∧
    List.Perm
      (saveRows (rollbackBalanceUpdates 7965 c2Store).1
        (rollbackBalanceUpdates 7965 c2Store).2) c2Store :=
  ⟨by decide, (rollback_save_symmetry.1 c2Store 7965 2 (by decide)).1,
   (rollback_save_symmetry.1 c2Store 7965 2 (by decide)).2.2.2⟩

/-- Validator row (spec §3): surrogate id, first-seen height, address, pubkey
type, pubkey and voting power. -/
structure Validator where
  id : Nat
  height : Nat
  address : String
  pubkeyType : String
  pubkey : String
  power : Int
deriving DecidableEq

/-- Modelled from the spec: `RollbackValidators`
(`internal/storage/postgres/transaction.go`, absent from the available sources;
spec §4.4 table): deletes validators whose creation height is strictly greater
than the given height, keeping the validator set active as of that height. -/
def rollbackValidators (h : Nat) (store : List Validator) : List Validator :=
  store.filter (fun v => decide (v.height ≤ h))

/-- Claim C7: `rollbackValidators h` keeps exactly the validators with creation
height ≤ h (so deletes exactly those with height > h, and a validator created
at h itself survives); `rollbackValidators 0` removes every validator with
creation height > 0. -/
theorem rollbackValidators_boundary :
    (∀ (store : List Validator) (h : Nat) (v : Validator),
      v ∈ rollbackValidators h store ↔ (v ∈ store ∧ v.height ≤ h)) ∧
    (∀ (store : List Validator) (h : Nat) (v : Validator), v ∈ store → v.height = h →
      v ∈ rollbackValidators h store) ∧
    (∀ (store : List Validator) (v : Validator), v ∈ store → 0 < v.height →
      v ∉ rollbackValidators 0 store) := by
  refine ⟨?_, ?_, ?_⟩
  · intro store h v
    simp [rollbackValidators, List.mem_filter]
  · intro store h v hv hh
    simp [rollbackValidators, List.mem_filter, hv, hh]
  · intro store v hv hh hcontra
    have := (List.mem_filter.mp hcontra).2
    simp at this
    omega

/-- Validator fixture: one genesis validator and one created at height 5. -/
def c7Store : List Validator :=
  [⟨1, 0, "v0", "ed25519", "k0", 1⟩, ⟨2, 5, "v5", "ed25519", "k5", 1⟩]

theorem rollbackValidators_boundary_witness :
    ((⟨2, 5, "v5", "ed25519", "k5", 1⟩ : Validator) ∈ c7Store ∧ (0 : Nat) < 5 ∧
      (⟨2, 5, "v5", "ed25519", "k5", 1⟩ : Validator) ∉ rollbackValidators 0 c7Store) ∧
    ((⟨1, 0, "v0", "ed25519", "k0", 1⟩ : Validator) ∈ c7Store ∧
      (⟨1, 0, "v0", "ed25519", "k0", 1⟩ : Validator) ∈ rollbackValidators 0 c7Store) :=
  ⟨⟨by decide, by decide,
    rollbackValidators_boundary.2.2 c7Store ⟨2, 5, "v5", "ed25519", "k5", 1⟩
      (by decide) (by decide)⟩,
   ⟨by decide,
    rollbackValidators_boundary.2.1 c7Store 0 ⟨1, 0, "v0", "ed25519", "k0", 1⟩
      (by decide) rfl⟩⟩

/-- BlockSignature row (spec §3): validator id, height, time. -/
structure BlockSignature where
  validatorId : Nat
  height : Nat
  time : Nat
deriving DecidableEq

/-- Modelled from the spec: `RetentionBlockSignatures`
(`internal/storage/postgres/transaction.go`, absent from the available sources;
spec §4.5 Retention Manager): deletes every signature row whose height is older
than a fixed retention window measured backward from the boundary.  The window
size is kept abstract; a row is kept exactly when boundary ≤ height + window,
i.e. height ≥ boundary − window. -/
def retentionBlockSignatures (window h : Nat) (store : List BlockSignature) :
    List BlockSignature :=
  store.filter (fun s => decide (h ≤ s.height + window))

/-- Claim C8: retention monotonicity.  `retentionBlockSignatures window h` never
removes a row with height ≥ h − window, removes only rows strictly older than
the window, and a second call with the same boundary (or after any earlier
boundary h2 ≤ h) removes nothing further. -/
theorem retention_monotone_idempotent :
    (∀ (window h : Nat) (store : List BlockSignature) (s : BlockSignature),
      s ∈ store → h - window ≤ s.height →
      s ∈ retentionBlockSignatures window h store) ∧
    (∀ (window h : Nat) (store : List BlockSignature) (s : BlockSignature),
      s ∈ store → s ∉ retentionBlockSignatures window h store →
      s.height + window < h) ∧
    (∀ (window h h2 : Nat) (store : List BlockSignature), h2 ≤ h →
      retentionBlockSignatures window h (retentionBlockSignatures window h2 store) =
        retentionBlockSignatures window h store) := by
  refine ⟨?_, ?_, ?_⟩
  · intro w h store s hs hge
    refine List.mem_filter.mpr ⟨hs, ?_⟩
    simp only [decide_eq_true_eq]
    omega
  · intro w h store s hs hout
    by_contra hlt
    exact hout (List.mem_filter.mpr ⟨hs, by simp only [decide_eq_true_eq]; omega⟩)
  · intro w h h2 store hle
    unfold retentionBlockSignatures
    rw [List.filter_filter]
    apply List.filter_congr
    intro s hs
    by_cases hc : h ≤ s.height + w
    · have hc2 : h2 ≤ s.height + w := le_trans hle hc
      simp [hc, hc2]
    · simp [hc]

/-- Signature fixture spanning heights 7960–7965. -/
def c8Store : List BlockSignature :=
  [⟨1, 7965, 0⟩, ⟨2, 7963, 0⟩, ⟨3, 7960, 0⟩]

theorem retention_monotone_idempotent_witness :
    ((⟨1, 7965, 0⟩ : BlockSignature) ∈ c8Store ∧
      (7964 : Nat) - 3 ≤ 7965 ∧
      (⟨1, 7965, 0⟩ : BlockSignature) ∈ retentionBlockSignatures 3 7964 c8Store) ∧
    retentionBlockSignatures 3 7964 (retentionBlockSignatures 3 7964 c8Store) =
      retentionBlockSignatures 3 7964 c8Store :=
  ⟨⟨by decide, by decide,
    retention_monotone_idempotent.1 3 7964 c8Store ⟨1, 7965, 0⟩ (by decide) (by decide)⟩,
   retention_monotone_idempotent.2.2 3 7964 7964 c8Store (le_refl 7964)⟩

/-- Modelled from the spec: the unit-of-work surface of a rollback deletion
returns the removed rows and an error slot (spec §6); a height with no matching
rows is not an error — it returns an empty removal (spec §7 NotFoundError). -/
def rollbackBalanceUpdatesE (h : Nat) (store : List BalanceUpdate) :
    Except String (List BalanceUpdate × List BalanceUpdate) :=
  Except.ok (rollbackBalanceUpdates h store)

/-- Claim C9: a rollback deletion whose height matches no stored rows succeeds
with an empty removal and leaves the store untouched, while an update that
targets a surrogate id with no stored row surfaces a not-found error. -/
theorem rollback_notFound_empty :
    (∀ (h : Nat) (store : List BalanceUpdate), (∀ r ∈ store, r.height ≠ h) →
      rollbackBalanceUpdatesE h store = Except.ok (store, [])) ∧
    (∀ (store : List Address) (u : Address), (∀ r ∈ store, r.id ≠ u.id) →
      ∃ e, updateAddresses store u = Except.error e) := by
  constructor
  · intro h store hnone
    have h1 : store.filter (fun r => !(r.height == h)) = store :=
      List.filter_eq_self.mpr (fun a ha => by simpa using hnone a ha)
    have h2 : store.filter (fun r => r.height == h) = [] := by
      rw [List.filter_eq_nil_iff]
      intro a ha
      simpa using hnone a ha
    simp [rollbackBalanceUpdatesE, rollbackBalanceUpdates, rollbackHeight, h1, h2]
  · intro store u hnone
    refine ⟨"address not found", ?_⟩
    have hany : store.any (fun r => r.id == u.id) = false := by
      rw [List.any_eq_false]
      intro x hx
      simpa using hnone x hx
    simp [updateAddresses, hany]

/-- Balance-update fixture with no row at height 4242. -/
def c9Store : List BalanceUpdate := [⟨7965, 1, "nria", 10⟩, ⟨7000, 2, "nria", 5⟩]

/-- Address fixture holding only id 1. -/
def c9AddrStore : List Address := [⟨1, "ff", 3, 5, 4, 6⟩]

/-- Update targeting id 99, absent from the address fixture. -/
def c9Upd : Address := ⟨99, "", 0, 0, 1, 1⟩

theorem rollback_notFound_empty_witness :
    (∀ r ∈ c9Store, r.height ≠ 4242) ∧
    rollbackBalanceUpdatesE 4242 c9Store = Except.ok (c9Store, []) ∧
    (∀ r ∈ c9AddrStore, r.id ≠ c9Upd.id) ∧
    (∃ e, updateAddresses c9AddrStore c9Upd = Except.error e) :=
  ⟨by decide, rollback_notFound_empty.1 4242 c9Store (by decide), by decide,
   rollback_notFound_empty.2 c9AddrStore c9Upd (by decide)⟩

/-- Modelled from the spec: running the operations accumulated in a unit of
work over the committed state (spec §5, §6): each operation transforms the
pending state or fails, and a failure aborts the remainder. -/
def foldOps {σ : Type} : σ → List (σ → Except String σ) → Except String σ
  | s, [] => Except.ok s
  | s, op :: rest =>
    match op s with
    | Except.ok s2 => foldOps s2 rest
    | Except.error e => Except.error e

/-- Modelled from the spec: the unit-of-work lifecycle (spec §5 and §8
Atomicity): when every accumulated operation succeeds, flush/close makes the
final pending state durable; when any operation fails, the unit of work is
abandoned and the previously committed state remains visible unchanged. -/
def runUnitOfWork {σ : Type} (committed : σ)
    (ops : List (σ → Except String σ)) : σ :=
  match foldOps committed ops with
  | Except.ok s => s
  | Except.error _ => committed

theorem foldOps_append {σ : Type} (s : σ) (l1 l2 : List (σ → Except String σ)) :
    foldOps s (l1 ++ l2) =
      match foldOps s l1 with
      | Except.ok s2 => foldOps s2 l2
      | Except.error e => Except.error e := by
  induction l1 generalizing s with
  | nil => simp [foldOps]
  | cons op rest ih =>
    simp only [List.cons_append, foldOps]
    cases op s with
    | ok s2 => exact ih s2
    | error e => rfl

/-- Claim C6: unit-of-work atomicity.  If any operation of the unit of work
fails — after any prefix of successful operations and regardless of what
follows — the closed/abandoned unit of work leaves the committed state exactly
as it was and no success state is produced; and when every operation succeeds,
all of them become durable together. -/
theorem unitOfWork_atomicity {σ : Type} (committed s : σ)
    (ops1 ops2 : List (σ → Except String σ)) (op : σ → Except String σ)
    (e : String) (h1 : foldOps committed ops1 = Except.ok s)
    (h2 : op s = Except.error e) :
    runUnitOfWork committed (ops1 ++ op :: ops2) = committed ∧
    (∀ sOk, foldOps committed (ops1 ++ op :: ops2) ≠ Except.ok sOk) ∧
    (∀ (ops : List (σ → Except String σ)) (sAll : σ),
      foldOps committed ops = Except.ok sAll → runUnitOfWork committed ops = sAll) := by
  have hfail : foldOps committed (ops1 ++ op :: ops2) = Except.error e := by
    rw [foldOps_append, h1]
    simp [foldOps, h2]
  refine ⟨?_, ?_, ?_⟩
  · simp [runUnitOfWork, hfail]
  · intro sOk hcontra
    rw [hfail] at hcontra
    cases hcontra
  · intro ops sAll hall
    simp [runUnitOfWork, hall]

/-- Committed state for the atomicity witness: one ingested height. -/
def c6Committed : List Nat := [7964]

/-- A successful save operation appending height 7965. -/
def c6Save : List Nat → Except String (List Nat) :=
  fun s => Except.ok (7965 :: s)

/-- A failing operation (for example a constraint-violating batch). -/
def c6Fail : List Nat → Except String (List Nat) :=
  fun _ => Except.error "validation"

theorem unitOfWork_atomicity_witness :
    foldOps c6Committed [c6Save] = Except.ok [7965, 7964] ∧
    c6Fail [7965, 7964] = Except.error "validation" ∧
    runUnitOfWork c6Committed ([c6Save] ++ c6Fail :: []) = c6Committed :=
  ⟨rfl, rfl,
   (unitOfWork_atomicity c6Committed [7965, 7964] [c6Save] [] c6Fail "validation"
     rfl rfl).1⟩

/-- Timeframe constant (internal/storage/series.go): "hour". -/
def TimeframeHour : String := "hour"

/-- Timeframe constant: "day". -/
def TimeframeDay : String := "day"

/-- Timeframe constant: "month". -/
def TimeframeMonth : String := "month"

/-- Series request (internal/storage/series.go `SeriesRequest`): optional time
bounds, with 0 standing for Go's zero `time.Time`. -/
structure SeriesRequest where
  From : Nat
  To : Nat
deriving DecidableEq

/-- `NewSeriesRequest` (internal/storage/series.go): a bound is set only for a
positive unix timestamp. -/
def NewSeriesRequest (fromSec toSec : Int) : SeriesRequest :=
  { From := if fromSec > 0 then fromSec.toNat else 0
    To := if toSec > 0 then toSec.toNat else 0 }

/-- Row of the block-stats materialized views queried by `Stats.Series`
(`internal/storage/postgres/stats.go`): the timestamp and the columns the
name switch can select.  Numeric values are abstracted to integers. -/
structure BlockStatsRow where
  ts : Nat
  dataSize : Int
  tps : Int
  tpsMax : Int
  tpsMin : Int
  bps : Int
  bpsMax : Int
  bpsMin : Int
  rbps : Int
  rbpsMax : Int
  rbpsMin : Int
  fee : Int
  supplyChange : Int
  blockTime : Int
  txCount : Int
  bytesInBlock : Int
  gasPrice : Int
  gasEfficiency : Int
  gasWanted : Int
  gasUsed : Int
deriving DecidableEq

/-- Row of the rollup-stats materialized views queried by
`Stats.RollupSeries`. -/
structure RollupStatsRow where
  ts : Nat
  rollupId : Nat
  actionsCount : Int
  avgSize : Int
  maxSize : Int
  minSize : Int
  size : Int
deriving DecidableEq

/-- Result item (internal/storage/series.go `SeriesItem`): timestamp, value
and, for the tps/bps/rbps series, max and min. -/
structure SeriesItem where
  ts : Nat
  value : Int
  max : Option Int
  min : Option Int
deriving DecidableEq

/-- The three block-stats views, by timeframe. -/
structure StatsViews where
  byHour : List BlockStatsRow
  byDay : List BlockStatsRow
  byMonth : List BlockStatsRow

/-- The three rollup-stats views, by timeframe. -/
structure RollupStatsViews where
  byHour : List RollupStatsRow
  byDay : List RollupStatsRow
  byMonth : List RollupStatsRow

/-- The view switch of `Stats.Series` (stats.go lines 23–33): hour, day and
month map to the corresponding view, anything else is rejected. -/
def viewFor (v : StatsViews) (timeframe : String) : Option (List BlockStatsRow) :=
  if timeframe = TimeframeHour then some v.byHour
  else if timeframe = TimeframeDay then some v.byDay
  else if timeframe = TimeframeMonth then some v.byMonth
  else none

/-- The view switch of `Stats.RollupSeries` (stats.go lines 80–90). -/
def rollupViewFor (v : RollupStatsViews) (timeframe : String) :
    Option (List RollupStatsRow) :=
  if timeframe = TimeframeHour then some v.byHour
  else if timeframe = TimeframeDay then some v.byDay
  else if timeframe = TimeframeMonth then some v.byMonth
  else none

/-- The column switch of `Stats.Series` (stats.go lines 37–66), in source
order: each recognised series name selects the projection of one row to
(ts, value) — and max/min for tps, bps and rbps — while an unrecognised name
yields none (the error case). -/
def seriesColumn (name : String) : Option (BlockStatsRow → SeriesItem) :=
  if name = "data_size" then some (fun r => ⟨r.ts, r.dataSize, none, none⟩)
  else if name = "tps" then some (fun r => ⟨r.ts, r.tps, some r.tpsMax, some r.tpsMin⟩)
  else if name = "bps" then some (fun r => ⟨r.ts, r.bps, some r.bpsMax, some r.bpsMin⟩)
  else if name = "rbps" then
    some (fun r => ⟨r.ts, r.rbps, some r.rbpsMax, some r.rbpsMin⟩)
  else if name = "fee" then some (fun r => ⟨r.ts, r.fee, none, none⟩)
  else if name = "supply_change" then some (fun r => ⟨r.ts, r.supplyChange, none, none⟩)
  else if name = "block_time" then some (fun r => ⟨r.ts, r.blockTime, none, none⟩)
  else if name = "tx_count" then some (fun r => ⟨r.ts, r.txCount, none, none⟩)
  else if name = "bytes_in_block" then some (fun r => ⟨r.ts, r.bytesInBlock, none, none⟩)
  else if name = "gas_price" then some (fun r => ⟨r.ts, r.gasPrice, none, none⟩)
  else if name = "gas_efficiency" then
    some (fun r => ⟨r.ts, r.gasEfficiency, none, none⟩)
  else if name = "gas_wanted" then some (fun r => ⟨r.ts, r.gasWanted, none, none⟩)
  else if name = "gas_used" then some (fun r => ⟨r.ts, r.gasUsed, none, none⟩)
  else none

/-- Projection of the selected column over every row of the view. -/
def projectSeries (name : String) (rows : List BlockStatsRow) :
    Option (List SeriesItem) :=
  (seriesColumn name).map (fun f => rows.map f)

/-- The column switch of `Stats.RollupSeries` (stats.go lines 95–108). -/
def rollupSeriesColumn (name : String) : Option (RollupStatsRow → SeriesItem) :=
  if name = "actions_count" then some (fun r => ⟨r.ts, r.actionsCount, none, none⟩)
  else if name = "avg_size" then some (fun r => ⟨r.ts, r.avgSize, none, none⟩)
  else if name = "max_size" then some (fun r => ⟨r.ts, r.maxSize, none, none⟩)
  else if name = "min_size" then some (fun r => ⟨r.ts, r.minSize, none, none⟩)
  else if name = "size" then some (fun r => ⟨r.ts, r.size, none, none⟩)
  else none

/-- Projection of the selected rollup column over every row of the view. -/
def projectRollupSeries (name : String) (rows : List RollupStatsRow) :
    Option (List SeriesItem) :=
  (rollupSeriesColumn name).map (fun f => rows.map f)

/-- The time-range filters of stats.go (lines 68–73 and 110–115): `ts >= From`
is applied only when From is set, `ts < To` only when To is set. -/
def applyRange (req : SeriesRequest) (items : List SeriesItem) : List SeriesItem :=
  let f1 := if req.From ≠ 0 then items.filter (fun i => decide (req.From ≤ i.ts)) else items
  if req.To ≠ 0 then f1.filter (fun i => decide (i.ts < req.To)) else f1

/-- `Stats.Series` (stats.go lines 22–77): timeframe switch, series-name
switch, time-range filters, and the LIMIT 100 of the final query. -/
def Series (v : StatsViews) (timeframe name : String) (req : SeriesRequest) :
    Except String (List SeriesItem) :=
  match viewFor v timeframe with
  | none => Except.error ("unexpected timeframe " ++ timeframe)
  | some rows =>
    match projectSeries name rows with
    | none => Except.error ("unexpected series name: " ++ name)
    | some items => Except.ok ((applyRange req items).take 100)

/-- `Stats.RollupSeries` (stats.go lines 79–119): like `Series` but over the
rollup views, keeping only the rows of the requested rollup id. -/
def RollupSeries (v : RollupStatsViews) (rollupId : Nat) (timeframe name : String)
    (req : SeriesRequest) : Except String (List SeriesItem) :=
  match rollupViewFor v timeframe with
  | none => Except.error ("unexpected timeframe " ++ timeframe)
  | some rows =>
    match projectRollupSeries name (rows.filter (fun r => r.rollupId == rollupId)) with
    | none => Except.error ("unexpected series name: " ++ name)
    | some items => Except.ok ((applyRange req items).take 100)

/-- The three timeframes accepted by the switches of stats.go. -/
abbrev validTimeframe (tf : String) : Prop :=
  tf = TimeframeHour ∨ tf = TimeframeDay ∨ tf = TimeframeMonth

/-- The thirteen series names recognised by `Stats.Series`. -/
abbrev validSeriesName (name : String) : Prop :=
  name ∈ ["data_size", "tps", "bps", "rbps", "fee", "supply_change", "block_time",
    "tx_count", "bytes_in_block", "gas_price", "gas_efficiency", "gas_wanted",
    "gas_used"]

/-- The five series names recognised by `Stats.RollupSeries`. -/
abbrev validRollupSeriesName (name : String) : Prop :=
  name ∈ ["actions_count", "avg_size", "max_size", "min_size", "size"]

theorem viewFor_eq_none (v : StatsViews) (tf : String) :
    viewFor v tf = none ↔ ¬ validTimeframe tf := by
  unfold viewFor validTimeframe
  split_ifs with h1 h2 h3 <;> simp_all

theorem viewFor_of_valid (v : StatsViews) (tf : String) (h : validTimeframe tf) :
    ∃ rows, viewFor v tf = some rows := by
  rcases h with h | h | h
  · exact ⟨v.byHour, by subst h; rfl⟩
  · exact ⟨v.byDay, by subst h; rfl⟩
  · exact ⟨v.byMonth, by subst h; rfl⟩

theorem rollupViewFor_eq_none (v : RollupStatsViews) (tf : String) :
    rollupViewFor v tf = none ↔ ¬ validTimeframe tf := by
  unfold rollupViewFor validTimeframe
  split_ifs with h1 h2 h3 <;> simp_all

theorem rollupViewFor_of_valid (v : RollupStatsViews) (tf : String)
    (h : validTimeframe tf) : ∃ rows, rollupViewFor v tf = some rows := by
  rcases h with h | h | h
  · exact ⟨v.byHour, by subst h; rfl⟩
  · exact ⟨v.byDay, by subst h; rfl⟩
  · exact ⟨v.byMonth, by subst h; rfl⟩

theorem seriesColumn_eq_none (name : String) :
    seriesColumn name = none ↔ ¬ validSeriesName name := by
  constructor
  · intro h hmem
    simp only [validSeriesName, List.mem_cons, List.not_mem_nil, or_false] at hmem
    rcases hmem with rfl | rfl | rfl | rfl | rfl | rfl | rfl | rfl | rfl | rfl | rfl
      | rfl | rfl
    all_goals simpa [seriesColumn] using congrArg Option.isSome h
  · intro hmem
    have hne : ∀ s : String, validSeriesName s → ¬ name = s := by
      intro s hs c
      exact hmem (c ▸ hs)
    rw [seriesColumn]
    rw [if_neg (hne "data_size" (by decide)), if_neg (hne "tps" (by decide)),
      if_neg (hne "bps" (by decide)), if_neg (hne "rbps" (by decide)),
      if_neg (hne "fee" (by decide)), if_neg (hne "supply_change" (by decide)),
      if_neg (hne "block_time" (by decide)), if_neg (hne "tx_count" (by decide)),
      if_neg (hne "bytes_in_block" (by decide)), if_neg (hne "gas_price" (by decide)),
      if_neg (hne "gas_efficiency" (by decide)), if_neg (hne "gas_wanted" (by decide)),
      if_neg (hne "gas_used" (by decide))]

theorem rollupSeriesColumn_eq_none (name : String) :
    rollupSeriesColumn name = none ↔ ¬ validRollupSeriesName name := by
  constructor
  · intro h hmem
    simp only [validRollupSeriesName, List.mem_cons, List.not_mem_nil, or_false] at hmem
    rcases hmem with rfl | rfl | rfl | rfl | rfl
    all_goals simpa [rollupSeriesColumn] using congrArg Option.isSome h
  · intro hmem
    have hne : ∀ s : String, validRollupSeriesName s → ¬ name = s := by
      intro s hs c
      exact hmem (c ▸ hs)
    rw [rollupSeriesColumn]
    rw [if_neg (hne "actions_count" (by decide)), if_neg (hne "avg_size" (by decide)),
      if_neg (hne "max_size" (by decide)), if_neg (hne "min_size" (by decide)),
      if_neg (hne "size" (by decide))]

theorem projectSeries_eq_none (name : String) (rows : List BlockStatsRow) :
    projectSeries name rows = none ↔ ¬ validSeriesName name := by
  rw [projectSeries, Option.map_eq_none']
  exact seriesColumn_eq_none name

theorem projectRollupSeries_eq_none (name : String) (rows : List RollupStatsRow) :
    projectRollupSeries name rows = none ↔ ¬ validRollupSeriesName name := by
  rw [projectRollupSeries, Option.map_eq_none']
  exact rollupSeriesColumn_eq_none name

theorem applyRange_bounds (req : SeriesRequest) (items : List SeriesItem) :
    ∀ i ∈ applyRange req items,
      (req.From ≠ 0 → req.From ≤ i.ts) ∧ (req.To ≠ 0 → i.ts < req.To) := by
  intro i hi
  unfold applyRange at hi
  by_cases hTo : req.To ≠ 0
  · rw [if_pos hTo] at hi
    have hm := List.mem_filter.mp hi
    have hlt : i.ts < req.To := by simpa using hm.2
    by_cases hFrom : req.From ≠ 0
    · rw [if_pos hFrom] at hm
      have hm2 := List.mem_filter.mp hm.1
      exact ⟨fun _ => by simpa using hm2.2, fun _ => hlt⟩
    · exact ⟨fun c => absurd c hFrom, fun _ => hlt⟩
  · rw [if_neg hTo] at hi
    by_cases hFrom : req.From ≠ 0
    · rw [if_pos hFrom] at hi
      have hm := List.mem_filter.mp hi
      exact ⟨fun _ => by simpa using hm.2, fun c => absurd c hTo⟩
    · rw [if_neg hFrom] at hi
      exact ⟨fun c => absurd c hFrom, fun c => absurd c hTo⟩

/-- Claim C10: `Stats.Series` and `Stats.RollupSeries` reject an unrecognised
timeframe or series name with an error carrying no data; otherwise the result
holds at most 100 items, each satisfying the inclusive From bound (ts ≥ From)
and the exclusive To bound (ts < To), and a bound participates only when it is
non-zero — with both bounds zero no filtering happens at all. -/
theorem series_validation_filtering :
    (∀ (v : StatsViews) (tf name : String) (req : SeriesRequest),
      ¬ validTimeframe tf →
        Series v tf name req = Except.error ("unexpected timeframe " ++ tf)) ∧
    (∀ (v : StatsViews) (tf name : String) (req : SeriesRequest),
      validTimeframe tf → ¬ validSeriesName name →
        Series v tf name req = Except.error ("unexpected series name: " ++ name)) ∧
    (∀ (v : StatsViews) (tf name : String) (req : SeriesRequest)
      (items : List SeriesItem),
      Series v tf name req = Except.ok items →
      items.length ≤ 100 ∧
      ∀ i ∈ items, (req.From ≠ 0 → req.From ≤ i.ts) ∧ (req.To ≠ 0 → i.ts < req.To)) ∧
    (∀ (req : SeriesRequest) (items : List SeriesItem), req.From = 0 → req.To = 0 →
      applyRange req items = items) ∧
    (∀ (v : RollupStatsViews) (rid : Nat) (tf name : String) (req : SeriesRequest),
      ¬ validTimeframe tf →
        RollupSeries v rid tf name req = Except.error ("unexpected timeframe " ++ tf)) ∧
    (∀ (v : RollupStatsViews) (rid : Nat) (tf name : String) (req : SeriesRequest),
      validTimeframe tf → ¬ validRollupSeriesName name →
        RollupSeries v rid tf name req =
          Except.error ("unexpected series name: " ++ name)) ∧
    (∀ (v : RollupStatsViews) (rid : Nat) (tf name : String) (req : SeriesRequest)
      (items : List SeriesItem),
      RollupSeries v rid tf name req = Except.ok items →
      items.length ≤ 100 ∧
      ∀ i ∈ items, (req.From ≠ 0 → req.From ≤ i.ts) ∧ (req.To ≠ 0 → i.ts < req.To)) := by
  refine ⟨?_, ?_, ?_, ?_, ?_, ?_, ?_⟩
  · intro v tf name req h
    unfold Series
    rw [(viewFor_eq_none v tf).mpr h]
  · intro v tf name req hvt hname
    rcases viewFor_of_valid v tf hvt with ⟨rows, hrows⟩
    unfold Series
    rw [hrows]
    simp only []
    rw [(projectSeries_eq_none name rows).mpr hname]
  · intro v tf name req items hok
    unfold Series at hok
    cases hv : viewFor v tf with
    | none =>
      simp only [hv] at hok
      exact Except.noConfusion hok
    | some rows =>
      simp only [hv] at hok
      cases hp : projectSeries name rows with
      | none =>
        simp only [hp] at hok
        exact Except.noConfusion hok
      | some its =>
        simp only [hp] at hok
        injection hok with hitems
        subst hitems
        constructor
        · rw [List.length_take]
          exact Nat.min_le_left _ _
        · intro i hi
          exact applyRange_bounds req its i (List.mem_of_mem_take hi)
  · intro req items h0 hto
    simp [applyRange, h0, hto]
  · intro v rid tf name req h
    unfold RollupSeries
    rw [(rollupViewFor_eq_none v tf).mpr h]
  · intro v rid tf name req hvt hname
    rcases rollupViewFor_of_valid v tf hvt with ⟨rows, hrows⟩
    unfold RollupSeries
    rw [hrows]
    simp only []
    rw [(projectRollupSeries_eq_none name
      (rows.filter (fun r => r.rollupId == rid))).mpr hname]
  · intro v rid tf name req items hok
    unfold RollupSeries at hok
    cases hv : rollupViewFor v tf with
    | none =>
      simp only [hv] at hok
      exact Except.noConfusion hok
    | some rows =>
      simp only [hv] at hok
      cases hp : projectRollupSeries name (rows.filter (fun r => r.rollupId == rid)) with
      | none =>
        simp only [hp] at hok
        exact Except.noConfusion hok
      | some its =>
        simp only [hp] at hok
        injection hok with hitems
        subst hitems
        constructor
        · rw [List.length_take]
          exact Nat.min_le_left _ _
        · intro i hi
          exact applyRange_bounds req its i (List.mem_of_mem_take hi)

/-- A single hourly block-stats row with ts = 5. -/
def c10Row : BlockStatsRow :=
  ⟨5, 1, 2, 3, 1, 4, 5, 3, 6, 7, 5, 8, 9, 10, 11, 12, 13, 14, 15, 16⟩

/-- Views with one hourly row. -/
def c10Views : StatsViews := ⟨[c10Row], [], []⟩

/-- Empty rollup views. -/
def c10RViews : RollupStatsViews := ⟨[], [], []⟩

/-- Request with From = 4 (set) and To = 0 (unset). -/
def c10Req : SeriesRequest := ⟨4, 0⟩

theorem series_validation_filtering_witness :
    ¬ validTimeframe "week" ∧
    Series c10Views "week" "tps" c10Req =
      Except.error ("unexpected timeframe " ++ "week") ∧
    validTimeframe "hour" ∧ ¬ validSeriesName "bogus" ∧
    Series c10Views "hour" "bogus" c10Req =
      Except.error ("unexpected series name: " ++ "bogus") ∧
    Series c10Views "hour" "tps" c10Req =
      Except.ok [⟨5, 2, some 3, some 1⟩] ∧
    ([(⟨5, 2, some 3, some 1⟩ : SeriesItem)]).length ≤ 100 ∧
    RollupSeries c10RViews 1 "week" "size" c10Req =
      Except.error ("unexpected timeframe " ++ "week") :=
  ⟨by decide,
   series_validation_filtering.1 c10Views "week" "tps" c10Req (by decide),
   by decide, by decide,
   series_validation_filtering.2.1 c10Views "hour" "bogus" c10Req (by decide) (by decide),
   rfl,
   (series_validation_filtering.2.2.1 c10Views "hour" "tps" c10Req
     [⟨5, 2, some 3, some 1⟩] rfl).1,
   series_validation_filtering.2.2.2.2.1 c10RViews 1 "week" "size" c10Req (by decide)⟩
